import Mathlib

/-!
Verification of the WebRTC multi-object-detection pipeline.

The definitions below are a shallow embedding of the repository's code:

* `postprocessResults`, `fastIOU`, `mkCandidate`, `nms` embed the engine
  postprocessing in `backend/webrtc-server.js` / the unnamed server variant
  (`postprocessResults`, `fastIOU`): score/class filtering, coordinate
  normalisation with clamping, stable sort by descending score, and the greedy
  non-maximum-suppression loop over a `suppressed` array (expressed here as the
  standard recursive filter form of that loop).
* `throttleStep` / `runThrottle` and `processFrameHandler` embed the
  `process-frame` socket handler: the per-room 100 ms throttle over a
  `Map` defaulting to `0`, the asynchronous processing block, the
  `detection-result` emission to the browser connection of the room, and the
  `processing-error` emission on failure.
* `stepV1` / `stepV2` embed the two viewer frame-pipeline variants in
  `components/WebRTCManager.tsx`: the queued variant (queue capped at 5 by
  `push` + `shift`, drained via `requestAnimationFrame`) and the
  drop-while-busy variant (`if (processingFrame.current) return`).
* `stepO` embeds the offload await in `processFrame` (server mode): a
  `socket.once('detection-result', …)` listener per dispatched frame, a 200 ms
  timer that resolves the promise with an empty result, and the fact that a
  `detection-result` event is delivered to every registered once-listener.

Numbers that are IEEE doubles in the source are modelled as rationals; all
arithmetic in the relevant code paths is exact at the scales involved.
-/

/-- The 80-entry COCO class catalogue (`YOLO_CLASSES` in the server). -/
def YOLO_CLASSES : List String :=
  ["person", "bicycle", "car", "motorcycle", "airplane", "bus", "train", "truck", "boat", "traffic light",
   "fire hydrant", "stop sign", "parking meter", "bench", "bird", "cat", "dog", "horse", "sheep", "cow",
   "elephant", "bear", "zebra", "giraffe", "backpack", "umbrella", "handbag", "tie", "suitcase", "frisbee",
   "skis", "snowboard", "sports ball", "kite", "baseball bat", "baseball glove", "skateboard", "surfboard",
   "tennis racket", "bottle", "wine glass", "cup", "fork", "knife", "spoon", "bowl", "banana", "apple",
   "sandwich", "orange", "broccoli", "carrot", "hot dog", "pizza", "donut", "cake", "chair", "couch",
   "potted plant", "bed", "dining table", "toilet", "tv", "laptop", "mouse", "remote", "keyboard", "cell phone",
   "microwave", "oven", "toaster", "sink", "refrigerator", "book", "clock", "vase", "scissors", "teddy bear",
   "hair drier", "toothbrush"]

/-- One raw candidate row `(x0, y0, x1, y1, score, class-id)` of the detector
output tensor `[1, N, 6]`. -/
structure RawDet where
  x0 : ℚ
  y0 : ℚ
  x1 : ℚ
  y1 : ℚ
  score : ℚ
  cls : ℚ
deriving DecidableEq, Repr

/-- A normalised detection record as pushed into `candidates` by
`postprocessResults`. -/
structure Detection where
  label : String
  score : ℚ
  xmin : ℚ
  ymin : ℚ
  xmax : ℚ
  ymax : ℚ
deriving DecidableEq, Repr

/-- JavaScript `Math.round`: round half toward positive infinity. -/
def jsRound (q : ℚ) : ℤ := ⌊q + 1/2⌋

/-- `Math.max(0, Math.min(1, q))`. -/
def clamp01 (q : ℚ) : ℚ := max 0 (min 1 q)

/-- `fastIOU`: intersection over union with the `1e-6` denominator epsilon. -/
def fastIOU (box1 box2 : Detection) : ℚ :=
  let x1 := max box1.xmin box2.xmin
  let y1 := max box1.ymin box2.ymin
  let x2 := min box1.xmax box2.xmax
  let y2 := min box1.ymax box2.ymax
  let intersection := max 0 (x2 - x1) * max 0 (y2 - y1)
  let area1 := (box1.xmax - box1.xmin) * (box1.ymax - box1.ymin)
  let area2 := (box2.xmax - box2.xmin) * (box2.ymax - box2.ymin)
  intersection / (area1 + area2 - intersection + 1/1000000)

/-- The per-candidate body of the `postprocessResults` loop: score/class
gate (`score > thresh && classId >= 0 && classId < YOLO_CLASSES.length`),
division by 640 with clamping to `[0,1]`, and the degenerate-box gate
(`xmax > xmin && ymax > ymin`). `thresh` is 0.45 in the unnamed server
variant and 0.5 in `backend/webrtc-server.js`. -/
def mkCandidate (thresh : ℚ) (r : RawDet) : Option Detection :=
  let classId := jsRound r.cls
  if r.score > thresh ∧ 0 ≤ classId ∧ classId < (YOLO_CLASSES.length : ℤ) then
    let xmin := clamp01 (r.x0 / 640)
    let ymin := clamp01 (r.y0 / 640)
    let xmax := clamp01 (r.x1 / 640)
    let ymax := clamp01 (r.y1 / 640)
    if xmax > xmin ∧ ymax > ymin then
      some { label := (YOLO_CLASSES.get? classId.toNat).getD ("class_" ++ toString classId)
             score := r.score
             xmin := xmin, ymin := ymin, xmax := xmax, ymax := ymax }
    else none
  else none

/-- The comparator `(a, b) => b.score - a.score`: `a` precedes `b` when
`b.score ≤ a.score` (descending; ties keep arrival order — the sort is
stable, as is the JavaScript engine's). -/
def byScore (a b : Detection) : Prop := b.score ≤ a.score

instance : DecidableRel byScore := fun a b => inferInstanceAs (Decidable (b.score ≤ a.score))

instance : IsTotal Detection byScore := ⟨fun a b => le_total b.score a.score⟩

instance : IsTrans Detection byScore := ⟨fun _ _ _ h1 h2 => le_trans h2 h1⟩

/-- The greedy NMS loop over the `suppressed` array, with an explicit fuel
argument so the recursion is structural (each surviving candidate is emitted
and every later candidate with IoU above 0.5 is dropped as suppressed). -/
def nmsAux : ℕ → List Detection → List Detection
  | _, [] => []
  | 0, _ :: _ => []
  | fuel + 1, d :: rest =>
    d :: nmsAux fuel (rest.filter fun c => decide (fastIOU d c ≤ 1/2))

/-- The NMS loop. The fuel `l.length` always suffices, since the filtered
tail is never longer than the tail (`nmsAux_fuel_irrel`). -/
def nms (l : List Detection) : List Detection := nmsAux l.length l

/-- Candidate extraction over the whole output tensor. -/
def candidatesOf (thresh : ℚ) (l : List RawDet) : List Detection :=
  l.filterMap (mkCandidate thresh)

/-- `postprocessResults`: filter, normalise, sort descending by score, NMS. -/
def postprocessResults (thresh : ℚ) (l : List RawDet) : List Detection :=
  nms (List.insertionSort byScore (candidatesOf thresh l))

-- Basic structural lemmas about the NMS loop.

theorem nmsAux_sublist : ∀ (fuel : ℕ) (l : List Detection), (nmsAux fuel l).Sublist l
  | _, [] => by simp [nmsAux]
  | 0, _ :: _ => by simp [nmsAux]
  | fuel + 1, d :: rest => by
    rw [nmsAux]
    exact ((nmsAux_sublist fuel _).trans (List.filter_sublist rest)).cons₂ d

theorem nmsAux_pairwise : ∀ (fuel : ℕ) (l : List Detection),
    (nmsAux fuel l).Pairwise (fun a b => fastIOU a b ≤ 1/2)
  | _, [] => by simp [nmsAux]
  | 0, _ :: _ => by simp [nmsAux]
  | fuel + 1, d :: rest => by
    rw [nmsAux]
    refine List.pairwise_cons.2 ⟨fun b hb => ?_, nmsAux_pairwise fuel _⟩
    have hmem : b ∈ rest.filter fun c => decide (fastIOU d c ≤ 1/2) :=
      (nmsAux_sublist fuel _).mem hb
    simpa using List.of_mem_filter hmem

/-- The fuel is irrelevant as long as it covers the list length; in
particular `l.length` is always enough, so `nms` is the unbounded greedy
loop. -/
theorem nmsAux_fuel_irrel : ∀ (f1 f2 : ℕ) (l : List Detection),
    l.length ≤ f1 → l.length ≤ f2 → nmsAux f1 l = nmsAux f2 l
  | _, _, [], _, _ => by simp [nmsAux]
  | 0, _, _ :: _, h1, _ => by simp at h1
  | _ + 1, 0, _ :: _, _, h2 => by simp at h2
  | f1 + 1, f2 + 1, d :: rest, h1, h2 => by
    rw [nmsAux, nmsAux]
    have hf : ∀ f : ℕ, rest.length ≤ f →
        (rest.filter fun c => decide (fastIOU d c ≤ 1/2)).length ≤ f :=
      fun f hff => le_trans (List.length_filter_le _ _) hff
    rw [nmsAux_fuel_irrel f1 f2 _
      (hf f1 (by simpa using Nat.lt_succ_iff.1 (Nat.lt_of_lt_of_le (Nat.lt_succ_self _) h1)))
      (hf f2 (by simpa using Nat.lt_succ_iff.1 (Nat.lt_of_lt_of_le (Nat.lt_succ_self _) h2)))]

theorem nms_sublist (l : List Detection) : (nms l).Sublist l :=
  nmsAux_sublist l.length l

theorem nms_pairwise (l : List Detection) :
    (nms l).Pairwise (fun a b => fastIOU a b ≤ 1/2) :=
  nmsAux_pairwise l.length l

theorem nms_sorted {l : List Detection} (h : List.Sorted byScore l) :
    List.Sorted byScore (nms l) :=
  List.Pairwise.sublist (nms_sublist l) h

/-! ## Engine `process-frame` handler -/

/-- A frame request as destructured by the `process-frame` handler. -/
structure FrameMsg where
  room : String
  frame_id : String
  capture_ts : ℤ
  imageData : String
  width : ℤ
  height : ℤ
deriving DecidableEq, Repr

/-- The `detection-result` payload. -/
structure DetResult where
  frame_id : String
  capture_ts : ℤ
  recv_ts : ℤ
  inference_ts : ℤ
  detections : List Detection
deriving DecidableEq, Repr

/-- A socket emission performed by the handler. -/
inductive Emission where
  | detectionResult (target : String) (r : DetResult)
  | processingError (target : String) (msg : String)
deriving DecidableEq, Repr

/-- The per-room throttle map `frameProcessingQueue` (room → last accepted
ingress time), as an association list where the most recent binding wins. -/
def ThrottleMap := List (String × ℤ)

/-- `frameProcessingQueue.get(room) || 0`. -/
def tLookup (m : ThrottleMap) (room : String) : ℤ :=
  match List.find? (fun p => p.1 == room) m with
  | some p => p.2
  | none => 0

/-- `frameProcessingQueue.set(room, t)`. -/
def tSet (m : ThrottleMap) (room : String) (t : ℤ) : ThrottleMap :=
  (room, t) :: m

/-- `FRAME_PROCESSING_INTERVAL` (100 ms). -/
def FRAME_PROCESSING_INTERVAL : ℤ := 100

/-- One `process-frame` ingress decision: skip (and leave the map unchanged)
when `recv_ts - lastProcessTime < FRAME_PROCESSING_INTERVAL`, otherwise record
`recv_ts` and accept. -/
def throttleStep (st : ThrottleMap) (a : String × ℤ) : ThrottleMap × Bool :=
  if a.2 - tLookup st a.1 < FRAME_PROCESSING_INTERVAL then (st, false)
  else (tSet st a.1 a.2, true)

/-- Run the throttle over a trace of `(room, ingress time)` arrivals,
returning the final map and the accepted sub-trace. -/
def runThrottle (st : ThrottleMap) : List (String × ℤ) → ThrottleMap × List (String × ℤ)
  | [] => (st, [])
  | a :: rest =>
    let s := throttleStep st a
    let r := runThrottle s.1 rest
    (r.1, if s.2 then a :: r.2 else r.2)

/-- Ingress times of the accepted frames of one room, in arrival order. -/
def acceptedTimes (st : ThrottleMap) (trace : List (String × ℤ)) (room : String) : List ℤ :=
  ((runThrottle st trace).2.filter (fun a => a.1 == room)).map (·.2)

/-- Consecutive elements are at least 100 ms apart. -/
def gapsOK : List ℤ → Prop
  | t1 :: t2 :: rest => FRAME_PROCESSING_INTERVAL ≤ t2 - t1 ∧ gapsOK (t2 :: rest)
  | _ => True

/-- The full `process-frame` handler for a single request. `pre` is the
outcome of `preprocessImage` (the prepared tensor data or a thrown error),
`infer` the outcome of `runInference` on it (the raw output rows or a thrown
error); `browserConn` is `browserConnections.get`; `recv_ts` and
`inference_ts` are the two `Date.now()` readings. Returns the updated
throttle map and the emissions performed. -/
def processFrameHandler (sessionLoaded : Bool) (throttle : ThrottleMap)
    (browserConn : String → Option String) (originator : String)
    (f : FrameMsg) (recv_ts inference_ts : ℤ)
    (pre : Except String (List ℚ)) (infer : List ℚ → Except String (List RawDet))
    (thresh : ℚ) : ThrottleMap × List Emission :=
  if ¬ sessionLoaded then
    (throttle, [.processingError originator "Model not loaded"])
  else if recv_ts - tLookup throttle f.room < FRAME_PROCESSING_INTERVAL then
    (throttle, [])
  else
    let throttle2 := tSet throttle f.room recv_ts
    match pre with
    | .error e => (throttle2, [.processingError originator e])
    | .ok tensor =>
      match infer tensor with
      | .error e => (throttle2, [.processingError originator e])
      | .ok output =>
        let result : DetResult :=
          { frame_id := f.frame_id, capture_ts := f.capture_ts
            recv_ts := recv_ts, inference_ts := inference_ts
            detections := postprocessResults thresh output }
        match browserConn f.room with
        | some b => (throttle2, [.detectionResult b result])
        | none => (throttle2, [])

/-- A frame is accepted when the model is loaded and the throttle gate passes. -/
def acceptedFrame (sessionLoaded : Bool) (throttle : ThrottleMap)
    (room : String) (recv_ts : ℤ) : Prop :=
  sessionLoaded = true ∧
    FRAME_PROCESSING_INTERVAL ≤ recv_ts - tLookup throttle room

/-! ## Viewer frame pipeline (`WebRTCManager.tsx`)

The viewer is single-threaded cooperative, so its pipeline is a step function
over discrete events: a frame arriving on the data channel (`onmessage` while
detecting), the completion of the awaited `processFrame`, and — for the queued
variant — the `requestAnimationFrame`-scheduled drain call. Frames are
identified by naturals. -/

/-- Viewer pipeline state: `pending` is `frameQueue.current`, `inflight` is
`processingFrame.current` together with the frame being processed,
`processed` records completed `processFrame` calls in order. -/
structure ViewerState where
  pending : List ℕ
  inflight : Option ℕ
  processed : List ℕ
deriving DecidableEq, Repr

def initViewer : ViewerState := ⟨[], none, []⟩

inductive VEvent where
  | arrive (f : ℕ)
  | complete
  | drain
deriving DecidableEq, Repr

/-- Variant 1 `onmessage`: `frameQueue.push(frameData); if (length > 5) shift()`. -/
def pushCap5 (q : List ℕ) (f : ℕ) : List ℕ :=
  let q2 := q ++ [f]
  if q2.length > 5 then q2.drop 1 else q2

/-- Variant 1 (`setupDataChannel` at the top of the file + its
`processFrameQueue`): arrivals are queued with cap 5; when idle, the head of
the queue is shifted into flight; completion re-triggers a drain via
`requestAnimationFrame` when the queue is non-empty (modelled as a separate
`drain` event, since arrivals may interleave before the callback runs). -/
def stepV1 (s : ViewerState) (e : VEvent) : ViewerState :=
  match e with
  | .arrive f =>
    let q := pushCap5 s.pending f
    match s.inflight with
    | some _ => { s with pending := q }
    | none =>
      match q with
      | [] => { s with pending := [] }
      | x :: rest => { s with pending := rest, inflight := some x }
  | .complete =>
    match s.inflight with
    | some f => { s with inflight := none, processed := s.processed ++ [f] }
    | none => s
  | .drain =>
    match s.inflight with
    | some _ => s
    | none =>
      match s.pending with
      | [] => s
      | x :: rest => { s with pending := rest, inflight := some x }

/-- Variant 2 `onmessage` (the later `setupDataChannel`): while a frame is in
flight the arriving frame is skipped outright (`if (processingFrame.current)
return`); otherwise the queue is overwritten with `[frameData]` and
`processFrameQueue` immediately shifts it into flight. Its
`processFrameQueue` does not self-retrigger on completion. -/
def stepV2 (s : ViewerState) (e : VEvent) : ViewerState :=
  match e with
  | .arrive f =>
    match s.inflight with
    | some _ => s
    | none => { s with pending := [], inflight := some f }
  | .complete =>
    match s.inflight with
    | some f => { s with inflight := none, processed := s.processed ++ [f] }
    | none => s
  | .drain => s

/-! ## Offload await and the 200 ms timeout (`processFrame`, server mode)

Each dispatch registers a `socket.once('detection-result', …)` listener and
arms a 200 ms timer whose firing resolves the frame's promise with
`{ detections: [], … }`. A `detection-result` event is delivered to every
registered once-listener (all are then deregistered); resolving an
already-resolved promise is a no-op, and `clearTimeout` after the timer has
fired is a no-op (modelled by `timerFire` doing nothing for a resolved
frame). Frames are identified by naturals; a reply payload is a natural
standing for the detections it carries. -/

structure OffloadState where
  /-- Registered once-listeners, oldest first (keyed by the frame that
  registered them). -/
  listeners : List ℕ
  /-- Each frame's resolved outcome, in resolution order: `some p` when the
  promise was resolved by a `detection-result` carrying payload `p`, `none`
  when it was resolved by the timeout with the synthesized empty result. -/
  results : List (ℕ × Option ℕ)
deriving DecidableEq, Repr

def initOffload : OffloadState := ⟨[], []⟩

inductive OEvent where
  /-- `processFrame` for frame `fid` emits `process-frame` and registers its
  once-listener. -/
  | dispatch (fid : ℕ)
  /-- A `detection-result` event with payload `p` reaches the socket. -/
  | reply (p : ℕ)
  /-- Frame `fid`'s 200 ms timer fires. -/
  | timerFire (fid : ℕ)
deriving DecidableEq, Repr

def resolvedIds (s : OffloadState) : List ℕ := s.results.map (·.1)

def stepO (s : OffloadState) (e : OEvent) : OffloadState :=
  match e with
  | .dispatch fid => { s with listeners := s.listeners ++ [fid] }
  | .reply p =>
    { listeners := []
      results := s.results ++
        (s.listeners.filter (fun fid => ¬ fid ∈ resolvedIds s)).map (fun fid => (fid, some p)) }
  | .timerFire fid =>
    if fid ∈ resolvedIds s then s
    else { s with results := s.results ++ [(fid, none)] }

def runOffload (trace : List OEvent) : OffloadState :=
  trace.foldl stepO initOffload

/-- The outcome recorded for frame `fid`, if resolved. -/
def resultOf (s : OffloadState) (fid : ℕ) : Option (Option ℕ) :=
  (List.find? (fun p => p.1 == fid) s.results).map (·.2)

/-! ## Helper lemmas for the postprocessing pipeline -/

theorem clamp01_nonneg (q : ℚ) : 0 ≤ clamp01 q := le_max_left _ _

theorem clamp01_le_one (q : ℚ) : clamp01 q ≤ 1 :=
  max_le zero_le_one (min_le_left _ _)

theorem YOLO_CLASSES_length : YOLO_CLASSES.length = 80 := by decide

/-- Everything `mkCandidate` lets through: score copied and above the
threshold, label drawn from the catalogue, box coordinates clamped to the
unit square and non-degenerate. -/
theorem mkCandidate_props {thresh : ℚ} {r : RawDet} {d : Detection}
    (h : mkCandidate thresh r = some d) :
    d.score = r.score ∧ thresh < d.score ∧ d.label ∈ YOLO_CLASSES ∧
    0 ≤ d.xmin ∧ d.xmin < d.xmax ∧ d.xmax ≤ 1 ∧
    0 ≤ d.ymin ∧ d.ymin < d.ymax ∧ d.ymax ≤ 1 := by
  simp only [mkCandidate] at h
  split at h
  case isTrue hgate =>
    split at h
    case isTrue hbox =>
      obtain ⟨hs, hc0, hc1⟩ := hgate
      obtain ⟨hx, hy⟩ := hbox
      cases h
      refine ⟨rfl, hs, ?_, clamp01_nonneg _, hx, clamp01_le_one _,
        clamp01_nonneg _, hy, clamp01_le_one _⟩
      have hlt : (jsRound r.cls).toNat < YOLO_CLASSES.length := by
        rw [YOLO_CLASSES_length]
        rw [YOLO_CLASSES_length] at hc1
        omega
      rw [List.get?_eq_get hlt]
      exact List.get_mem _ _ _
    case isFalse => exact absurd h (by simp)
  case isFalse => exact absurd h (by simp)

theorem mem_candidatesOf {thresh : ℚ} {l : List RawDet} {d : Detection}
    (h : d ∈ candidatesOf thresh l) :
    ∃ r ∈ l, mkCandidate thresh r = some d := by
  simpa [candidatesOf] using (List.mem_filterMap.1 h)

/-- Every survivor of the full pipeline is one of the gated candidates. -/
theorem postprocess_mem {thresh : ℚ} {l : List RawDet} {d : Detection}
    (h : d ∈ postprocessResults thresh l) : d ∈ candidatesOf thresh l :=
  (List.mem_insertionSort byScore).1 ((nms_sublist _).mem h)

/-! ## Claims C3, C4, C5: postprocessing -/

/-- **C3.** Postprocessing keeps a candidate only if its score strictly
exceeds the score threshold (0.45 in the unnamed variant, 0.5 in
`backend/webrtc-server.js`, so in both variants strictly above 0.45) and its
class-id lies in `[0, 80)`; hence under the detector contract that raw scores
do not exceed 1, every emitted detection has score in `(0.45, 1]` and a label
from the fixed 80-entry catalogue. -/
theorem detections_score_and_label (thresh : ℚ) (l : List RawDet)
    (hthresh : 45/100 ≤ thresh) (hscores : ∀ r ∈ l, r.score ≤ 1)
    (d : Detection) (hd : d ∈ postprocessResults thresh l) :
    45/100 < d.score ∧ d.score ≤ 1 ∧ d.label ∈ YOLO_CLASSES := by
  obtain ⟨r, hr, hmk⟩ := mem_candidatesOf (postprocess_mem hd)
  obtain ⟨hcopy, hgt, hlabel, _⟩ := mkCandidate_props hmk
  refine ⟨lt_of_le_of_lt hthresh hgt, ?_, hlabel⟩
  rw [hcopy]
  exact hscores r hr

/-- **C4.** On the pipeline's own output: every pair of surviving detections
has `fastIOU` at most 0.5 (the engine's IoU with the 1e-6 epsilon), the
survivors appear in descending score order, and each survivor is one of the
gated candidates unchanged (suppression removes, it never re-scores). -/
theorem nms_survivors_property (thresh : ℚ) (l : List RawDet) :
    (postprocessResults thresh l).Pairwise (fun a b => fastIOU a b ≤ 1/2) ∧
    List.Sorted byScore (postprocessResults thresh l) ∧
    ∀ d ∈ postprocessResults thresh l, d ∈ candidatesOf thresh l :=
  ⟨nms_pairwise _, nms_sorted (List.sorted_insertionSort byScore _),
    fun _ hd => postprocess_mem hd⟩

/-- **C5.** Every emitted detection has normalized box coordinates with
`0 ≤ xmin < xmax ≤ 1` and `0 ≤ ymin < ymax ≤ 1`: raw coordinates are divided
by 640 and clamped to `[0,1]`, and degenerate boxes are discarded before NMS. -/
theorem detection_boxes_normalized (thresh : ℚ) (l : List RawDet)
    (d : Detection) (hd : d ∈ postprocessResults thresh l) :
    0 ≤ d.xmin ∧ d.xmin < d.xmax ∧ d.xmax ≤ 1 ∧
    0 ≤ d.ymin ∧ d.ymin < d.ymax ∧ d.ymax ≤ 1 := by
  obtain ⟨r, _, hmk⟩ := mem_candidatesOf (postprocess_mem hd)
  obtain ⟨-, -, -, h1, h2, h3, h4, h5, h6⟩ := mkCandidate_props hmk
  exact ⟨h1, h2, h3, h4, h5, h6⟩

/-- A concrete raw candidate row: box `(64, 64, 320, 320)`, score 0.9,
class 0. -/
def sampleRaw : RawDet := ⟨64, 64, 320, 320, 9/10, 0⟩

/-- The detection `postprocessResults` produces from `sampleRaw`. -/
def sampleDet : Detection := ⟨"person", 9/10, 1/10, 1/10, 1/2, 1/2⟩

theorem mkCandidate_sample : mkCandidate (45/100) sampleRaw = some sampleDet := by
  norm_num [mkCandidate, sampleRaw, sampleDet, jsRound, clamp01, YOLO_CLASSES]

theorem postprocess_sample :
    postprocessResults (45/100) [sampleRaw] = [sampleDet] := by
  have hc : candidatesOf (45/100) [sampleRaw] = [sampleDet] := by
    simp [candidatesOf, mkCandidate_sample]
  simp [postprocessResults, hc, List.insertionSort, List.orderedInsert, nms, nmsAux]

theorem detections_score_and_label_witness :
    45/100 < sampleDet.score ∧ sampleDet.score ≤ 1 ∧
    sampleDet.label ∈ YOLO_CLASSES :=
  detections_score_and_label (45/100) [sampleRaw] (by norm_num)
    (by intro r hr; simp only [List.mem_singleton] at hr; subst hr; norm_num [sampleRaw])
    sampleDet (by rw [postprocess_sample]; exact List.mem_singleton_self _)

theorem nms_survivors_property_witness :
    sampleDet ∈ candidatesOf (45/100) [sampleRaw] :=
  (nms_survivors_property (45/100) [sampleRaw]).2.2 sampleDet
    (by rw [postprocess_sample]; exact List.mem_singleton_self _)

theorem detection_boxes_normalized_witness :
    0 ≤ sampleDet.xmin ∧ sampleDet.xmin < sampleDet.xmax ∧ sampleDet.xmax ≤ 1 ∧
    0 ≤ sampleDet.ymin ∧ sampleDet.ymin < sampleDet.ymax ∧ sampleDet.ymax ≤ 1 :=
  detection_boxes_normalized (45/100) [sampleRaw] sampleDet
    (by rw [postprocess_sample]; exact List.mem_singleton_self _)

/-! ## Claim C10: class-agnostic NMS -/

/-- Change only the class label of a detection, leaving score and box
untouched. -/
def relabel (g : String → String) (d : Detection) : Detection :=
  { d with label := g d.label }

theorem nmsAux_relabel : ∀ (fuel : ℕ) (l : List Detection) (g : String → String),
    nmsAux fuel (l.map (relabel g)) = (nmsAux fuel l).map (relabel g)
  | _, [], _ => by simp [nmsAux]
  | 0, _ :: _, _ => by simp [nmsAux]
  | fuel + 1, d :: rest, g => by
    show nmsAux (fuel + 1) (relabel g d :: rest.map (relabel g)) = _
    rw [nmsAux, nmsAux, List.map_cons]
    congr 1
    have hcomp :
        ((rest.map (relabel g)).filter fun c => decide (fastIOU (relabel g d) c ≤ 1/2)) =
          (rest.filter fun c => decide (fastIOU d c ≤ 1/2)).map (relabel g) :=
      List.filter_map (relabel g) rest
    rw [hcomp, nmsAux_relabel fuel _ g]

/-- **C10.** The NMS loop never inspects class labels: (a) it commutes with
any relabelling of the candidates, and (b) of two candidates whose IoU
exceeds 0.5, the lower-scored one is suppressed by the higher-scored one —
with no hypothesis at all relating their labels, so two overlapping
detections of distinct classes cannot both survive. -/
theorem nms_class_agnostic :
    (∀ (g : String → String) (l : List Detection),
      nms (l.map (relabel g)) = (nms l).map (relabel g)) ∧
    (∀ c1 c2 : Detection, c2.score ≤ c1.score → 1/2 < fastIOU c1 c2 →
      nms (List.insertionSort byScore [c1, c2]) = [c1]) := by
  constructor
  · intro g l
    show nmsAux (l.map (relabel g)).length (l.map (relabel g)) = _
    rw [List.length_map, nmsAux_relabel]
    rfl
  · intro c1 c2 hs hiou
    have hsort : List.insertionSort byScore [c1, c2] = [c1, c2] := by
      simp [List.insertionSort, List.orderedInsert, byScore, if_pos hs]
    have hfilter : ([c2].filter fun c => decide (fastIOU c1 c ≤ 1/2)) = [] := by
      rw [List.filter_cons_of_neg (by simpa using not_le.2 hiou), List.filter_nil]
    rw [hsort]
    show nmsAux 2 [c1, c2] = [c1]
    rw [nmsAux, hfilter, nmsAux]

/-- The second box of the spec's NMS edge-case scenario, deliberately given a
different class label. -/
def overlapDet : Detection := ⟨"car", 8/10, 11/100, 11/100, 51/100, 51/100⟩

theorem nms_class_agnostic_witness :
    nms (List.insertionSort byScore [sampleDet, overlapDet]) = [sampleDet] :=
  nms_class_agnostic.2 sampleDet overlapDet
    (by norm_num [sampleDet, overlapDet])
    (by norm_num [fastIOU, sampleDet, overlapDet, max_def, min_def])

/-! ## Claim C1: per-room throttle -/

theorem tLookup_tSet_same (st : ThrottleMap) (room : String) (t : ℤ) :
    tLookup (tSet st room t) room = t := by
  simp [tLookup, tSet]

theorem tLookup_tSet_other (st : ThrottleMap) {r1 room : String} (t : ℤ)
    (h : r1 ≠ room) : tLookup (tSet st r1 t) room = tLookup st room := by
  simp [tLookup, tSet, List.find?_cons, h]

/-- Consecutive-gap property, strengthened with the current throttle entry as
the virtual previous acceptance. -/
theorem accepted_chain : ∀ (trace : List (String × ℤ)) (st : ThrottleMap) (room : String),
    gapsOK (tLookup st room :: acceptedTimes st trace room)
  | [], _, _ => by simp [acceptedTimes, runThrottle, gapsOK]
  | a :: rest, st, room => by
    by_cases hacc : a.2 - tLookup st a.1 < FRAME_PROCESSING_INTERVAL
    · have hrun : acceptedTimes st (a :: rest) room = acceptedTimes st rest room := by
        simp [acceptedTimes, runThrottle, throttleStep, if_pos hacc]
      rw [hrun]
      exact accepted_chain rest st room
    · by_cases hroom : a.1 = room
      · subst hroom
        have hrun : acceptedTimes st (a :: rest) a.1 =
            a.2 :: acceptedTimes (tSet st a.1 a.2) rest a.1 := by
          simp [acceptedTimes, runThrottle, throttleStep, if_neg hacc]
        rw [hrun]
        have h2 := accepted_chain rest (tSet st a.1 a.2) a.1
        rw [tLookup_tSet_same] at h2
        exact ⟨by omega, h2⟩
      · have hrun : acceptedTimes st (a :: rest) room =
            acceptedTimes (tSet st a.1 a.2) rest room := by
          simp [acceptedTimes, runThrottle, throttleStep, if_neg hacc, hroom]
        rw [hrun]
        have h2 := accepted_chain rest (tSet st a.1 a.2) room
        rwa [tLookup_tSet_other st a.2 hroom] at h2

theorem gapsOK_tail {x : ℤ} {l : List ℤ} (h : gapsOK (x :: l)) : gapsOK l := by
  match l with
  | [] => trivial
  | t2 :: rest => exact h.2

/-- **C1 (amended).** Per-room throttling: (a) for every trace of ingress
events and every room, consecutive accepted frames in that room are at least
100 ms apart (not strictly more — the gate is `elapsed < 100` drops); (b) a
frame below the interval is dropped with no change to the throttle map;
(c) a dropped frame causes no emission at all; (d) two frames 99 ms apart —
the second is dropped; 101 ms apart — both are accepted. -/
theorem throttle_min_interval :
    (∀ (trace : List (String × ℤ)) (room : String),
      gapsOK (acceptedTimes [] trace room)) ∧
    (∀ (st : ThrottleMap) (a : String × ℤ),
      a.2 - tLookup st a.1 < FRAME_PROCESSING_INTERVAL → throttleStep st a = (st, false)) ∧
    (∀ (throttle : ThrottleMap) (browserConn : String → Option String)
      (originator : String) (f : FrameMsg) (recv_ts inference_ts : ℤ)
      (pre : Except String (List ℚ)) (infer : List ℚ → Except String (List RawDet))
      (thresh : ℚ), recv_ts - tLookup throttle f.room < FRAME_PROCESSING_INTERVAL →
      processFrameHandler true throttle browserConn originator f recv_ts inference_ts
        pre infer thresh = (throttle, [])) ∧
    (∀ (st : ThrottleMap) (room : String) (t : ℤ),
      FRAME_PROCESSING_INTERVAL ≤ t - tLookup st room →
      (runThrottle st [(room, t), (room, t + 99)]).2 = [(room, t)] ∧
      (runThrottle st [(room, t), (room, t + 101)]).2 = [(room, t), (room, t + 101)]) := by
  refine ⟨fun trace room => gapsOK_tail (accepted_chain trace [] room),
    fun st a h => by simp [throttleStep, if_pos h], ?_, ?_⟩
  · intro throttle browserConn originator f recv_ts inference_ts pre infer thresh h
    simp [processFrameHandler, if_pos h]
  · intro st room t h
    constructor
    · have h99 : (t + 99) - tLookup (tSet st room t) room < FRAME_PROCESSING_INTERVAL := by
        rw [tLookup_tSet_same]
        norm_num [FRAME_PROCESSING_INTERVAL]
      simp [runThrottle, throttleStep, if_neg (not_lt.2 h), if_pos h99]
    · have h101 : ¬ ((t + 101) - tLookup (tSet st room t) room < FRAME_PROCESSING_INTERVAL) := by
        rw [tLookup_tSet_same]
        norm_num [FRAME_PROCESSING_INTERVAL]
      simp [runThrottle, throttleStep, if_neg (not_lt.2 h), if_neg h101]

/-- **C1 (counterexample).** Two frames exactly 100 ms apart are *both*
accepted, and their elapsed time does not exceed 100 ms — refuting the
claim's strict reading at the boundary. -/
theorem throttle_exact_boundary_counterexample :
    (runThrottle [] [("r", 1000), ("r", 1100)]).2 = [("r", 1000), ("r", 1100)] ∧
    ¬ (100 < (1100 : ℤ) - 1000) := by
  constructor
  · decide
  · decide

/-! ## Claims C6, C7, C8: the accepted-frame contract -/

/-- **C6.** An accepted frame (model loaded, throttle gate passed) yields
exactly one emission — a single `detection-result` to the room's registered
viewer or a single `processing-error` to the originator — except that a
result completed while no viewer is registered is dropped with no emission
at all. -/
theorem accepted_frame_single_emission (sessionLoaded : Bool) (throttle : ThrottleMap)
    (browserConn : String → Option String) (originator : String) (f : FrameMsg)
    (recv_ts inference_ts : ℤ) (pre : Except String (List ℚ))
    (infer : List ℚ → Except String (List RawDet)) (thresh : ℚ)
    (hacc : acceptedFrame sessionLoaded throttle f.room recv_ts) :
    (∃ e, (processFrameHandler sessionLoaded throttle browserConn originator f
        recv_ts inference_ts pre infer thresh).2 = [.processingError originator e]) ∨
    (∃ b r, browserConn f.room = some b ∧
      (processFrameHandler sessionLoaded throttle browserConn originator f
        recv_ts inference_ts pre infer thresh).2 = [.detectionResult b r]) ∨
    (browserConn f.room = none ∧
      (processFrameHandler sessionLoaded throttle browserConn originator f
        recv_ts inference_ts pre infer thresh).2 = []) := by
  obtain ⟨hs, hgate⟩ := hacc
  subst hs
  rw [processFrameHandler]
  simp only [Bool.not_true, if_neg (by trivial : ¬ False), if_neg (not_lt.2 hgate)]
  cases pre with
  | error e => exact .inl ⟨e, by simp⟩
  | ok tensor =>
    cases hinf : infer tensor with
    | error e => exact .inl ⟨e, by simp [hinf]⟩
    | ok output =>
      cases hb : browserConn f.room with
      | some b =>
        refine .inr (.inl ⟨b, ⟨f.frame_id, f.capture_ts, recv_ts, inference_ts,
          postprocessResults thresh output⟩, rfl, ?_⟩)
        simp [hinf, hb]
      | none => exact .inr (.inr ⟨rfl, by simp [hinf, hb]⟩)

/-- **C7.** For an accepted frame, a failure in preprocessing (decode/resize)
or in the detector invocation (shape mismatch/runtime) produces exactly the
`processing-error` emission to the originator, no `detection-result`, and the
room's throttle entry stays at the acceptance ingress time — not rewound. -/
theorem failure_emits_error_keeps_throttle (throttle : ThrottleMap)
    (browserConn : String → Option String) (originator : String) (f : FrameMsg)
    (recv_ts inference_ts : ℤ) (pre : Except String (List ℚ))
    (infer : List ℚ → Except String (List RawDet)) (thresh : ℚ) (e : String)
    (hacc : acceptedFrame true throttle f.room recv_ts)
    (herr : pre = .error e ∨ ∃ tensor, pre = .ok tensor ∧ infer tensor = .error e) :
    (processFrameHandler true throttle browserConn originator f
      recv_ts inference_ts pre infer thresh).2 = [.processingError originator e] ∧
    tLookup (processFrameHandler true throttle browserConn originator f
      recv_ts inference_ts pre infer thresh).1 f.room = recv_ts := by
  obtain ⟨-, hgate⟩ := hacc
  simp only [processFrameHandler]
  simp only [Bool.not_true, if_neg (by trivial : ¬ False), if_neg (not_lt.2 hgate)]
  rcases herr with he | ⟨tensor, hok, hinf⟩
  · subst he
    exact ⟨by simp, by simp [tLookup_tSet_same]⟩
  · subst hok
    exact ⟨by simp [hinf], by simp [hinf, tLookup_tSet_same]⟩

/-- **C8.** Every `detection-result` emitted by the handler echoes the
request's `capture_ts` unchanged and carries the engine's ingress and
completion clock readings; under a shared monotone clock (a frame cannot
reach the engine before it was captured, and completion does not precede
ingress) the ordering `capture_ts ≤ recv_ts ≤ inference_ts` holds. -/
theorem detection_result_timestamps (sessionLoaded : Bool) (throttle : ThrottleMap)
    (browserConn : String → Option String) (originator : String) (f : FrameMsg)
    (recv_ts inference_ts : ℤ) (pre : Except String (List ℚ))
    (infer : List ℚ → Except String (List RawDet)) (thresh : ℚ)
    (b : String) (r : DetResult)
    (hcap : f.capture_ts ≤ recv_ts) (hmono : recv_ts ≤ inference_ts)
    (hmem : Emission.detectionResult b r ∈
      (processFrameHandler sessionLoaded throttle browserConn originator f
        recv_ts inference_ts pre infer thresh).2) :
    r.capture_ts = f.capture_ts ∧ r.recv_ts = recv_ts ∧ r.inference_ts = inference_ts ∧
    r.capture_ts ≤ r.recv_ts ∧ r.recv_ts ≤ r.inference_ts := by
  simp only [processFrameHandler] at hmem
  split at hmem
  · simp at hmem
  · split at hmem
    · simp at hmem
    · cases pre with
      | error e => simp at hmem
      | ok tensor =>
        dsimp only at hmem
        cases hinf : infer tensor with
        | error e => rw [hinf] at hmem; simp at hmem
        | ok output =>
          rw [hinf] at hmem
          dsimp only at hmem
          cases hb : browserConn f.room with
          | some b2 =>
            rw [hb] at hmem
            simp only [List.mem_singleton, Emission.detectionResult.injEq] at hmem
            obtain ⟨-, hr⟩ := hmem
            subst hr
            exact ⟨rfl, rfl, rfl, hcap, hmono⟩
          | none => rw [hb] at hmem; simp at hmem

/-- Sample handler inputs for the witnesses. -/
def sampleFrame : FrameMsg := ⟨"room1", "f1", 900, "img", 640, 640⟩

def sampleConn : String → Option String := fun _ => some "browser1"

theorem accepted_frame_single_emission_witness :
    (∃ e, (processFrameHandler true [] sampleConn "phone1" sampleFrame
        1000 1050 (.ok []) (fun _ => .ok []) (45/100)).2 =
      [.processingError "phone1" e]) ∨
    (∃ b r, sampleConn sampleFrame.room = some b ∧
      (processFrameHandler true [] sampleConn "phone1" sampleFrame
        1000 1050 (.ok []) (fun _ => .ok []) (45/100)).2 = [.detectionResult b r]) ∨
    (sampleConn sampleFrame.room = none ∧
      (processFrameHandler true [] sampleConn "phone1" sampleFrame
        1000 1050 (.ok []) (fun _ => .ok []) (45/100)).2 = []) :=
  accepted_frame_single_emission true [] sampleConn "phone1" sampleFrame
    1000 1050 (.ok []) (fun _ => .ok []) (45/100)
    ⟨rfl, by norm_num [tLookup, FRAME_PROCESSING_INTERVAL]⟩

theorem failure_emits_error_keeps_throttle_witness :
    (processFrameHandler true [] sampleConn "phone1" sampleFrame
      1000 1050 (.error "decode failed") (fun _ => .ok []) (45/100)).2 =
      [.processingError "phone1" "decode failed"] ∧
    tLookup (processFrameHandler true [] sampleConn "phone1" sampleFrame
      1000 1050 (.error "decode failed") (fun _ => .ok []) (45/100)).1
      sampleFrame.room = 1000 :=
  failure_emits_error_keeps_throttle [] sampleConn "phone1" sampleFrame
    1000 1050 (.error "decode failed") (fun _ => .ok []) (45/100) "decode failed"
    ⟨rfl, by norm_num [tLookup, FRAME_PROCESSING_INTERVAL]⟩ (.inl rfl)

theorem detection_result_timestamps_witness :
    (⟨"f1", 900, 1000, 1050, []⟩ : DetResult).capture_ts = sampleFrame.capture_ts ∧
    (⟨"f1", 900, 1000, 1050, []⟩ : DetResult).recv_ts = 1000 ∧
    (⟨"f1", 900, 1000, 1050, []⟩ : DetResult).inference_ts = 1050 ∧
    (⟨"f1", 900, 1000, 1050, []⟩ : DetResult).capture_ts ≤
      (⟨"f1", 900, 1000, 1050, []⟩ : DetResult).recv_ts ∧
    (⟨"f1", 900, 1000, 1050, []⟩ : DetResult).recv_ts ≤
      (⟨"f1", 900, 1000, 1050, []⟩ : DetResult).inference_ts :=
  detection_result_timestamps true [] sampleConn "phone1" sampleFrame
    1000 1050 (.ok []) (fun _ => .ok []) (45/100) "browser1"
    ⟨"f1", 900, 1000, 1050, []⟩ (by norm_num [sampleFrame]) (by norm_num)
    (by
      rw [processFrameHandler]
      norm_num [tLookup, FRAME_PROCESSING_INTERVAL, sampleConn, sampleFrame,
        postprocessResults, candidatesOf, nms, nmsAux, List.insertionSort])

theorem throttle_min_interval_witness :
    gapsOK (acceptedTimes [] [("r", 1000), ("r", 1100)] "r") ∧
    throttleStep [("r", (1000 : ℤ))] ("r", 1050) = ([("r", 1000)], false) ∧
    (runThrottle [] [("q", 200), ("q", 299)]).2 = [("q", 200)] ∧
    (runThrottle [] [("q", 200), ("q", 301)]).2 = [("q", 200), ("q", 301)] := by
  have h99 := (throttle_min_interval.2.2.2 [] "q" 200 (by simp [tLookup]; norm_num [FRAME_PROCESSING_INTERVAL])).1
  have h101 := (throttle_min_interval.2.2.2 [] "q" 200 (by simp [tLookup]; norm_num [FRAME_PROCESSING_INTERVAL])).2
  refine ⟨throttle_min_interval.1 [("r", 1000), ("r", 1100)] "r",
    throttle_min_interval.2.1 [("r", 1000)] ("r", 1050) (by simp [tLookup]; norm_num [FRAME_PROCESSING_INTERVAL]),
    by simpa using h99, by simpa using h101⟩

/-! ## Claim C2: viewer frame pipeline -/

theorem pushCap5_length {q : List ℕ} (f : ℕ) (h : q.length ≤ 5) :
    (pushCap5 q f).length ≤ 5 := by
  simp only [pushCap5]
  split
  case isTrue h2 => simp; omega
  case isFalse h2 => simp at h2 ⊢; omega

theorem stepV1_pending_le (s : ViewerState) (e : VEvent)
    (h : s.pending.length ≤ 5) : (stepV1 s e).pending.length ≤ 5 := by
  obtain ⟨pend, infl, proc⟩ := s
  simp only at h
  cases e with
  | arrive f =>
    have hq := pushCap5_length f h
    cases infl with
    | some x => simpa [stepV1] using hq
    | none =>
      cases hc : pushCap5 pend f with
      | nil => simp [stepV1, hc]
      | cons x rest =>
        have h2 : (x :: rest).length ≤ 5 := hc ▸ hq
        simp at h2
        simp [stepV1, hc]
        omega
  | complete =>
    cases infl with
    | some x => simpa [stepV1] using h
    | none => simpa [stepV1] using h
  | drain =>
    cases infl with
    | some x => simpa [stepV1] using h
    | none =>
      cases pend with
      | nil => simp [stepV1]
      | cons x rest =>
        simp at h
        simp [stepV1]
        omega

theorem foldlV1_pending (trace : List VEvent) :
    (List.foldl stepV1 initViewer trace).pending.length ≤ 5 := by
  have hgen : ∀ (tr : List VEvent) (s : ViewerState), s.pending.length ≤ 5 →
      (List.foldl stepV1 s tr).pending.length ≤ 5 := by
    intro tr
    induction tr with
    | nil => intro s hs; simpa using hs
    | cons e rest ih =>
      intro s hs
      rw [List.foldl_cons]
      exact ih _ (stepV1_pending_le s e hs)
  exact hgen trace initViewer (by simp [initViewer])

theorem stepV2_busy_arrive (s : ViewerState) (f : ℕ)
    (h : s.inflight.isSome = true) : stepV2 s (.arrive f) = s := by
  obtain ⟨x, hx⟩ := Option.isSome_iff_exists.1 h
  simp [stepV2, hx]

theorem foldlV2_arrivals_busy (fs : List ℕ) (s : ViewerState)
    (h : s.inflight.isSome = true) :
    List.foldl stepV2 s (fs.map VEvent.arrive) = s := by
  induction fs generalizing s with
  | nil => rfl
  | cons a as ih =>
    rw [List.map_cons, List.foldl_cons, stepV2_busy_arrive s a h]
    exact ih s h

theorem burstV2_processed (f1 : ℕ) (fs : List ℕ) :
    (List.foldl stepV2 (stepV2 initViewer (.arrive f1))
      (fs.map VEvent.arrive ++ [VEvent.complete])).processed = [f1] := by
  have h1 : stepV2 initViewer (.arrive f1) = ⟨[], some f1, []⟩ := rfl
  rw [List.foldl_append, h1, foldlV2_arrivals_busy fs ⟨[], some f1, []⟩ rfl]
  rfl

theorem stepV2_pending_nil (s : ViewerState) (e : VEvent)
    (h : s.pending = []) : (stepV2 s e).pending = [] := by
  cases e with
  | arrive f =>
    unfold stepV2
    cases s.inflight with
    | some _ => exact h
    | none => rfl
  | complete =>
    unfold stepV2
    cases s.inflight with
    | some _ => exact h
    | none => exact h
  | drain => exact h

theorem foldlV2_pending (trace : List VEvent) :
    (List.foldl stepV2 initViewer trace).pending = [] := by
  have hgen : ∀ (tr : List VEvent) (s : ViewerState), s.pending = [] →
      (List.foldl stepV2 s tr).pending = [] := by
    intro tr
    induction tr with
    | nil => intro s hs; simpa using hs
    | cons e rest ih =>
      intro s hs
      rw [List.foldl_cons]
      exact ih _ (stepV2_pending_nil s e hs)
  exact hgen trace initViewer rfl

/-- **C2 (amended).** What the code actually guarantees: (a) in the
drop-while-busy variant a frame arriving while one is in flight is discarded
outright, (b) hence any burst of arrivals while in flight leaves the state
unchanged, (c) bursting any number of frames while the first is in flight
yields exactly one processed frame — the in-flight first one, not two — and
no errors, (d) that variant never holds a pending frame, while (e) the
queued variant holds up to five pending frames (not one). -/
theorem viewer_latest_only_amended :
    (∀ (s : ViewerState) (f : ℕ), s.inflight.isSome = true →
      stepV2 s (VEvent.arrive f) = s) ∧
    (∀ (fs : List ℕ) (s : ViewerState), s.inflight.isSome = true →
      List.foldl stepV2 s (fs.map VEvent.arrive) = s) ∧
    (∀ (f1 : ℕ) (fs : List ℕ),
      (List.foldl stepV2 (stepV2 initViewer (.arrive f1))
        (fs.map VEvent.arrive ++ [VEvent.complete])).processed = [f1]) ∧
    (∀ trace : List VEvent, (List.foldl stepV2 initViewer trace).pending = []) ∧
    (∀ trace : List VEvent, (List.foldl stepV1 initViewer trace).pending.length ≤ 5) :=
  ⟨stepV2_busy_arrive, foldlV2_arrivals_busy, burstV2_processed,
    foldlV2_pending, foldlV1_pending⟩

theorem viewer_latest_only_amended_witness :
    stepV2 ⟨[], some 7, []⟩ (VEvent.arrive 9) = ⟨[], some 7, []⟩ ∧
    (List.foldl stepV2 (stepV2 initViewer (.arrive 1))
      ([2, 3].map VEvent.arrive ++ [VEvent.complete])).processed = [1] :=
  ⟨viewer_latest_only_amended.1 ⟨[], some 7, []⟩ 9 rfl,
    viewer_latest_only_amended.2.2.1 1 [2, 3]⟩

/-- 100 frames (ids 2 through 101) bursting on the data channel. -/
def burst100 : List VEvent := (List.range 100).map (fun i => VEvent.arrive (i + 2))

set_option maxRecDepth 10000 in
/-- **C2 (counterexample).** Bursting 100 frames while frame 1 is in flight:
the drop-while-busy variant processes exactly one frame (the in-flight first
one), not two; and in the queued variant the pending queue reaches depth 5,
refuting "at most one pending". -/
theorem viewer_pipeline_counterexample :
    (List.foldl stepV2 (stepV2 initViewer (.arrive 1))
      (burst100 ++ [VEvent.complete])).processed.length = 1 ∧
    (1 : ℕ) ≠ 2 ∧
    (List.foldl stepV1 (stepV1 initViewer (.arrive 1)) burst100).pending.length = 5 ∧
    ¬ ((5 : ℕ) ≤ 1) := by
  refine ⟨by decide, by decide, by decide, by decide⟩

/-! ## Claim C9: offload timeout and late replies -/

theorem find?_results_isSome {s : OffloadState} {fid : ℕ}
    (h : fid ∈ resolvedIds s) :
    (List.find? (fun q => q.1 == fid) s.results).isSome = true := by
  obtain ⟨pair, hmem, hfst⟩ := List.mem_map.1 h
  exact List.find?_isSome.2 ⟨pair, hmem, by simp [hfst]⟩

theorem find?_results_eq_none {s : OffloadState} {fid : ℕ}
    (h : ¬ fid ∈ resolvedIds s) :
    List.find? (fun q => q.1 == fid) s.results = none := by
  refine List.find?_eq_none.2 fun x hx => ?_
  simp only [beq_iff_eq]
  intro hfst
  exact h (List.mem_map.2 ⟨x, hx, hfst⟩)

theorem timerFire_unresolved (s : OffloadState) (fid : ℕ)
    (h : ¬ fid ∈ resolvedIds s) :
    stepO s (.timerFire fid) = { s with results := s.results ++ [(fid, none)] } := by
  simp [stepO, if_neg h]

theorem reply_keeps_resolved (s : OffloadState) (fid : ℕ) (p : ℕ)
    (h : fid ∈ resolvedIds s) :
    resultOf (stepO s (.reply p)) fid = resultOf s fid := by
  obtain ⟨x, hx⟩ := Option.isSome_iff_exists.1 (find?_results_isSome h)
  simp [resultOf, stepO, List.find?_append, hx]

theorem reply_resolves_listener (s : OffloadState) (fid : ℕ) (p : ℕ)
    (hl : fid ∈ s.listeners) (h : ¬ fid ∈ resolvedIds s) :
    resultOf (stepO s (.reply p)) fid = some (some p) := by
  have hnone := find?_results_eq_none h
  have hmemf : fid ∈ s.listeners.filter (fun y => decide (¬ y ∈ resolvedIds s)) :=
    List.mem_filter.2 ⟨hl, by simpa using h⟩
  have hsome : (List.find? (fun y => y == fid)
      (s.listeners.filter (fun y => decide (¬ y ∈ resolvedIds s)))).isSome = true :=
    List.find?_isSome.2 ⟨fid, hmemf, by simp⟩
  obtain ⟨x, hx⟩ := Option.isSome_iff_exists.1 hsome
  have hxfid : x = fid := by simpa using List.find?_some hx
  subst hxfid
  have hmapped : List.find? (fun q => q.1 == x)
      ((s.listeners.filter (fun y => decide (¬ y ∈ resolvedIds s))).map
        (fun y => (y, some p))) = some (x, some p) := by
    rw [List.find?_map,
      show ((fun q : ℕ × Option ℕ => q.1 == x) ∘ fun y => (y, some p)) =
        fun y => y == x from rfl, hx]
    rfl
  have hstep : stepO s (.reply p) =
      ⟨[], s.results ++ (s.listeners.filter (fun y => decide (¬ y ∈ resolvedIds s))).map
        (fun y => (y, some p))⟩ := rfl
  rw [hstep]
  simp only [resultOf]
  rw [List.find?_append, hnone, Option.none_or, hmapped]
  rfl

/-- **C9 (amended).** What the code actually guarantees about the 200 ms
offload timeout: (a) when the timer fires for a frame whose promise is still
unresolved, the frame resolves with the synthesized empty result and
processing continues; (b) a reply arriving after the timeout cannot change
the timed-out frame's own recorded result; but (c) the timed-out frame's
once-listener stays registered until the next `detection-result` event,
which is delivered to every registered listener — so any later frame still
awaiting at that moment adopts the late reply as its own result (the late
reply is *not* discarded; there is no frame-id correlation). -/
theorem offload_timeout_amended :
    (∀ (s : OffloadState) (fid : ℕ), ¬ fid ∈ resolvedIds s →
      stepO s (.timerFire fid) = { s with results := s.results ++ [(fid, none)] }) ∧
    (∀ (s : OffloadState) (fid p : ℕ), fid ∈ resolvedIds s →
      resultOf (stepO s (.reply p)) fid = resultOf s fid) ∧
    (∀ (s : OffloadState) (fid p : ℕ), fid ∈ s.listeners → ¬ fid ∈ resolvedIds s →
      resultOf (stepO s (.reply p)) fid = some (some p)) :=
  ⟨timerFire_unresolved, fun s fid p h => reply_keeps_resolved s fid p h,
    fun s fid p hl h => reply_resolves_listener s fid p hl h⟩

theorem offload_timeout_amended_witness :
    stepO ⟨[], []⟩ (.timerFire 1) = ⟨[], [(1, none)]⟩ ∧
    resultOf (stepO ⟨[1], [(0, none)]⟩ (.reply 5)) 0 = resultOf ⟨[1], [(0, none)]⟩ 0 ∧
    resultOf (stepO ⟨[1], []⟩ (.reply 5)) 1 = some (some 5) :=
  ⟨offload_timeout_amended.1 ⟨[], []⟩ 1 (by decide),
    offload_timeout_amended.2.1 ⟨[1], [(0, none)]⟩ 0 5 (by decide),
    offload_timeout_amended.2.2 ⟨[1], []⟩ 1 5 (by decide) (by decide)⟩

/-- Frame 1 dispatched, its timer fires with no reply; frame 2 dispatched;
the reply to frame 1's request (payload 7) arrives late; frame 2's timer
fires. -/
def lateReplyTrace : List OEvent :=
  [.dispatch 1, .timerFire 1, .dispatch 2, .reply 7, .timerFire 2]

/-- **C9 (counterexample).** Frame 1 times out and resolves empty, but the
late reply (payload 7, belonging to frame 1's request — the only
`process-frame` emission answered in this trace) is then adopted as frame 2's
result: frame 2 resolves with the late payload instead of the synthesized
empty result the claim requires, so a late reply does alter a later frame's
result. -/
theorem late_reply_counterexample :
    resultOf (runOffload lateReplyTrace) 1 = some none ∧
    resultOf (runOffload lateReplyTrace) 2 = some (some 7) ∧
    (some (some 7) : Option (Option ℕ)) ≠ some none := by
  refine ⟨by decide, by decide, by decide⟩
